import Mathlib

/-!
Verification of the Google business scraper (`src/scraper.py`).

The Python source is shallowly embedded: pure helpers (`clean_phone_number`,
`extract_business_info`, `is_captcha_page`) become Lean functions over explicit
data models of the DOM and of the rendered page surface; the per-session
pagination loop of `scrape_google` becomes a fold over an environment that
supplies one outcome per page navigation.  Python strings are Lean `String`
(lists of characters); Python `None` is `Option.none`; Python truthiness of
strings is modelled explicitly (`""` is falsy).  The phone-number regular
expression `PHONE_REGEX` is embedded as a nondeterministic prefix matcher over
`List Char` whose alternatives mirror the regex text, with results ordered the
way a backtracking engine (alternation order, greedy quantifiers) explores
them; `re.findall` is the usual left-to-right non-overlapping scan on top of
it.  `\s` inside character classes is modelled by `Char.isWhitespace`
(space/tab/CR/LF); wall-clock timestamps, logging, screenshots and the actual
file I/O performed by the persistence sink are not modelled (the model records
*which* save is attempted and with which metadata, treating the sink as the
external collaborator the spec declares it to be).  `hash(str(item))` used for
page-level item dedup is modelled by the serialized item markup itself (hash
collisions are ignored, i.e. the hash is treated as injective).
-/

/-! ### Generic string helpers (Python semantics) -/

/-- Count of decimal digit characters in a character list. -/
def dCount : List Char → Nat
  | [] => 0
  | c :: rest => (if c.isDigit then 1 else 0) + dCount rest

/-- Python `needle in hay` substring test. -/
def strContains (hay needle : String) : Bool :=
  (List.range (hay.data.length + 1)).any (fun i => needle.data.isPrefixOf (hay.data.drop i))

/-- Python `s.startswith(pre)`. -/
def strStarts (s pre : String) : Bool :=
  pre.data.isPrefixOf s.data

/-- Python `s.lower()` (ASCII behaviour). -/
def pyLower (s : String) : String :=
  ⟨s.data.map Char.toLower⟩

/-- Python `s.strip()`: drop whitespace from both ends. -/
def pyStrip (s : String) : String :=
  ⟨((s.data.dropWhile Char.isWhitespace).reverse.dropWhile Char.isWhitespace).reverse⟩

/-- Python truthiness of an optional string (`None` and `""` are falsy). -/
def truthyStr : Option String → Bool
  | some s => !(s == "")
  | none => false

/-- Python `a or b` on two optional strings (first truthy value wins). -/
def pyOr (a b : Option String) : Option String :=
  if truthyStr a then a else b

/-! ### `clean_phone_number` (scraper.py lines 48-64) -/

/-- Characters kept by `re.sub(r'[^\d+]', '', phone_str)`: digits and `+`. -/
def isDP (c : Char) : Bool := c.isDigit || c == '+'

/-- `if cleaned.startswith('00'): cleaned = '+' + cleaned[2:]`. -/
def rewrite00 (l : List Char) : List Char :=
  if l.take 2 = ['0', '0'] then '+' :: l.drop 2 else l

/-- `if cleaned.startswith('33') and len(cleaned) == 11: cleaned = '0' + cleaned[2:]`. -/
def rewrite33 (l : List Char) : List Char :=
  if l.take 2 = ['3', '3'] ∧ l.length = 11 then '0' :: l.drop 2 else l

/-- `clean_phone_number` from scraper.py: strip everything but digits and `+`,
rewrite a leading `00` to `+`, then rewrite a leading `33` of an 11-character
value to `0`.  Returns `none` exactly when the input string is falsy (empty). -/
def clean_phone_number (phone_str : String) : Option String :=
  if phone_str = "" then none
  else some ⟨rewrite33 (rewrite00 (phone_str.data.filter isDP))⟩

/-! ### The phone-number regex `PHONE_REGEX` (scraper.py lines 24-35)

The regex is embedded as a nondeterministic prefix matcher: a parser maps an
input character list to the list of possible remainders after consuming a
prefix that the (sub)pattern matches, ordered the way a backtracking engine
explores them (alternatives in written order, optional pieces greedily). -/

/-- A prefix matcher: possible remainders, in backtracking preference order. -/
abbrev P := List Char → List (List Char)

/-- Match one character satisfying `p`. -/
def pCh (p : Char → Bool) : P
  | [] => []
  | c :: rest => if p c then [rest] else []

/-- Sequencing of two patterns. -/
def pSeq (f g : P) : P := fun cs => ((f cs).map g).flatten

/-- Alternation, first alternative preferred. -/
def pAlt (f g : P) : P := fun cs => f cs ++ g cs

/-- Greedy `?`: consuming is preferred over skipping. -/
def pOpt (f : P) : P := fun cs => f cs ++ [cs]

/-- Separator class `[\s\-.]`. -/
def isSepC (c : Char) : Bool := c.isWhitespace || c == '-' || c == '.'

/-- Separator class `[\s\-]` (French / US formats). -/
def isSepF (c : Char) : Bool := c.isWhitespace || c == '-'

def pD : P := pCh Char.isDigit
def pSep : P := pCh isSepC
def pSepF : P := pCh isSepF
def pPlus : P := pCh (· == '+')
def pZero : P := pCh (· == '0')
def pLPar : P := pCh (· == '(')
def pRPar : P := pCh (· == ')')
def pD2 : P := pSeq pD pD
def pD3 : P := pSeq pD2 pD
def pD4 : P := pSeq pD2 pD2

/-- `\d{2,3}` (greedy: three digits tried before two). -/
def pD23 : P := pAlt pD3 pD2

/-- `\d{1,3}` (greedy). -/
def pD123 : P := pAlt pD3 (pAlt pD2 pD)

/-- `[\s\-.]?`. -/
def pSepOpt : P := pOpt pSep

/-- `(?:[\s\-.]?\d{2,3})`. -/
def pGroup : P := pSeq pSepOpt pD23

/-- `(?:[\s\-.]?\d{2,3}){4}`. -/
def pGroups4 : P := pSeq pGroup (pSeq pGroup (pSeq pGroup pGroup))

/-- `(?:\+|00)\d{1,3}[\s\-.]?` — country-code lead-in. -/
def pCC : P := pSeq (pAlt pPlus (pSeq pZero pZero)) (pSeq pD123 pSepOpt)

/-- `0\d[\s\-.]?` — local-prefix lead-in. -/
def pLocal : P := pSeq pZero (pSeq pD pSepOpt)

/-- First alternative: `(?:(?:\+|00)\d{1,3}[\s\-.]?|0\d[\s\-.]?)(?:[\s\-.]?\d{2,3}){4}`. -/
def pAlt1 : P := pSeq (pAlt pCC pLocal) pGroups4

/-- Second alternative (French): `0\d[\s\-]?\d{2}[\s\-]?\d{2}[\s\-]?\d{2}[\s\-]?\d{2}`. -/
def pFr : P :=
  pSeq pZero (pSeq pD (pSeq (pOpt pSepF) (pSeq pD2 (pSeq (pOpt pSepF)
    (pSeq pD2 (pSeq (pOpt pSepF) (pSeq pD2 (pSeq (pOpt pSepF) pD2))))))))

/-- Third alternative (US): `\(\d{3}\)[\s\-]?\d{3}[\s\-]?\d{4}`. -/
def pUS : P :=
  pSeq pLPar (pSeq pD3 (pSeq pRPar (pSeq (pOpt pSepF) (pSeq pD3 (pSeq (pOpt pSepF) pD4)))))

/-- The whole `PHONE_REGEX`. -/
def phoneP : P := pAlt pAlt1 (pAlt pFr pUS)

/-- `re.findall(PHONE_REGEX, text)`: scan left to right; at each position take
the backtracking engine's preferred match if any, emit it, and resume after it
(positions with no match advance by one character).  The structural `fuel`
argument only makes the recursion structural: every step strictly shortens the
remaining input, so with `fuel ≥ length` the fuel never runs out. -/
def phoneFindAllAux : Nat → List Char → List (List Char)
  | 0, _ => []
  | _ + 1, [] => []
  | fuel + 1, c :: rest =>
    match phoneP (c :: rest) with
    | [] => phoneFindAllAux fuel rest
    | r :: _ =>
      (c :: rest).take ((c :: rest).length - r.length) ::
        phoneFindAllAux fuel ((c :: rest).drop (max 1 ((c :: rest).length - r.length)))

/-- `PHONE_REGEX.findall(text)` on strings. -/
def findAllPhones (s : String) : List String :=
  (phoneFindAllAux s.data.length s.data).map (fun l => ⟨l⟩)

/-! ### DOM model

A BeautifulSoup tag is abstracted to its stripped text and the two attributes
the scraper reads.  An item (one search-result fragment) is abstracted to the
observations the scraper makes of it: `select_one` per selector string (first
binding wins), `select` per selector string, the aggregate visible text
`get_text(" ", strip=True)`, and its serialized markup `str(item)` (used by the
page-level dedup). -/

structure Tag where
  text : String
  src : Option String := none
  dataSrc : Option String := none
deriving DecidableEq

structure Item where
  sels : List (String × Tag)
  selsAll : List (String × List Tag)
  textAll : String
  raw : String
deriving DecidableEq

/-- `item.select_one(sel)`. -/
def Item.selectOne (it : Item) (sel : String) : Option Tag :=
  (it.sels.find? (fun p => p.1 == sel)).map (fun p => p.2)

/-- `item.select(sel)`. -/
def Item.selectAll (it : Item) (sel : String) : List Tag :=
  ((it.selsAll.find? (fun p => p.1 == sel)).map (fun p => p.2)).getD []

/-! ### `extract_business_info` (scraper.py lines 145-246) -/

def name_selectors : List String :=
  ["span.OSrXXb", "h3.LC20lb", "h3", "h2", "div.vk_bk",
   "span[role=\x27heading\x27]", "div.dBln1c", "div.CNf3nf", "div.cXedhc"]

def img_selectors : List String :=
  ["img.YQ4gaf", "img.XNo5Ab", "img", "img.rISBZc"]

def contact_sections_selector : String :=
  "div.rllt__details, div.s, div.I6TXqe, span.OSrXXb"

/-- Name resolution: first name selector whose tag has non-empty stripped text. -/
def firstName : List String → Item → Option String
  | [], _ => none
  | sel :: rest, it =>
    match it.selectOne sel with
    | some tag => if tag.text ≠ "" then some tag.text else firstName rest it
    | none => firstName rest it

/-- First regex match whose cleaned form is truthy and 8-15 characters long
(`if cleaned_phone and 8 <= len(cleaned_phone) <= 15`). -/
def firstValidPhone : List String → Option String
  | [] => none
  | m :: rest =>
    match clean_phone_number m with
    | some c => if c ≠ "" ∧ 8 ≤ c.length ∧ c.length ≤ 15 then some c else firstValidPhone rest
    | none => firstValidPhone rest

/-- Phone search over one text blob: `PHONE_REGEX.findall` then first valid. -/
def phoneFromText (text : String) : Option String :=
  firstValidPhone (findAllPhones text)

/-- Fallback phone search over the contact-info sections, first hit wins. -/
def phoneFromSections : List Tag → Option String
  | [] => none
  | sec :: rest =>
    match phoneFromText sec.text with
    | some p => some p
    | none => phoneFromSections rest

/-- `if image_link and image_link.startswith('http')` — the only condition on
which the image loop breaks (a `data:image` value, like anything else, just
lets the loop continue). -/
def linkBreaks : Option String → Bool
  | some s => !(s == "") && strStarts s "http"
  | none => false

/-- Image resolution loop (scraper.py lines 199-211): each selector with a tag
overwrites `image_link` with `get('src') or get('data-src')`; the loop breaks
early only when the value is truthy and starts with `http`. -/
def pickImage : List String → Item → Option String → Option String
  | [], _, cur => cur
  | sel :: rest, it, cur =>
    match it.selectOne sel with
    | none => pickImage rest it cur
    | some tag =>
      if linkBreaks (pyOr tag.src tag.dataSrc) then pyOr tag.src tag.dataSrc
      else pickImage rest it (pyOr tag.src tag.dataSrc)

/-- First maximal run of `[\d.]` characters (`re.search(r'[\d.]+', text)`). -/
def firstNumRun (s : String) : Option String :=
  match s.data.dropWhile (fun c => !(c.isDigit || c == '.')) with
  | [] => none
  | l => some ⟨l.takeWhile (fun c => c.isDigit || c == '.')⟩

/-- Decimal value of a digit list. -/
def digitsToNat (l : List Char) : Nat :=
  l.foldl (fun acc c => acc * 10 + (c.toNat - '0'.toNat)) 0

/-- The business-record dictionary produced by `extract_business_info`.
The rating is modelled as the matched `[\d.]+` text (its `float` conversion is
not modelled; no claim depends on the numeric value). -/
structure BusinessInfo where
  name : String
  phone : Option String
  image : Option String
  rating : Option String
  reviews : Option Nat
  category : Option String
deriving DecidableEq

/-- `extract_business_info(item)`: name via ordered selector fallback (reject
when absent or shorter than 2), phone via regex scan of the whole item text
falling back to contact sections, image via the attribute-preference loop,
best-effort rating / reviews / category. -/
def extract_business_info (it : Item) : Option BusinessInfo :=
  match firstName name_selectors it with
  | none => none
  | some name =>
    if name.length < 2 then none
    else
      let phone :=
        match phoneFromText it.textAll with
        | some p => some p
        | none => phoneFromSections (it.selectAll contact_sections_selector)
      let image := pickImage img_selectors it none
      let rating :=
        match it.selectOne "span.rtng" with
        | none => none
        | some tag => firstNumRun tag.text
      let reviews :=
        match it.selectOne "span[aria-label*=\x27review\x27]" with
        | none => none
        | some tag =>
          match tag.text.data.filter Char.isDigit with
          | [] => none
          | ds => some (digitsToNat ds)
      let category :=
        (it.selectOne "div.YhemCb, div.yuRUbf, div.CCgQ5").map (fun tag => tag.text)
      some { name := name, phone := phone, image := image,
             rating := rating, reviews := reviews, category := category }

/-! ### `is_captcha_page` (scraper.py lines 102-143)

The rendered page surface is abstracted to the observations the detector can
make of it: current URL, title, the full DOM text (available to the detector's
caller through `page.content()`, though the detector itself never reads it),
and the element count behind `page.locator(sel).count()`. -/

structure PageState where
  url : String
  title : String
  bodyText : String
  locatorCount : String → Nat

def captcha_indicators : List String :=
  ["captcha", "not a robot", "unusual traffic", "robot check", "verification"]

def captcha_selectors : List String :=
  ["#captcha-form", ".g-recaptcha", "form[action*=\x27sorry\x27]",
   "input[name=\x27captcha\x27]", "div.rc-"]

/-- `is_captcha_page(page)`: URL substrings, lower-cased title phrases,
structural captcha selectors, then the `#recaptcha-anchor` checkbox. -/
def is_captcha_page (p : PageState) : Bool :=
  strContains p.url "sorry" || strContains p.url "check" ||
  captcha_indicators.any (fun ind => strContains (pyLower p.title) ind) ||
  captcha_selectors.any (fun sel => 0 < p.locatorCount sel) ||
  decide (0 < p.locatorCount "#recaptcha-anchor")

/-! ### Page-level item collection (scraper.py lines 313-339) -/

def selectors_to_try : List String :=
  ["div.g", "div[data-sokoban-container]", "div.w7Dbne", "div.VkpGBb",
   "div.MUxGbd", "div.tF2Cxc", "div.yuRUbf"]

/-- The `seen`-set dedup loop over found items: drop an item whose serialized
markup was already seen, keep first occurrences in order. -/
def dedupByRaw : List Item → List String → List Item
  | [], _ => []
  | it :: rest, seen =>
    if it.raw ∈ seen then dedupByRaw rest seen
    else it :: dedupByRaw rest (it.raw :: seen)

/-- Item enumeration for one page: every selector strategy's results are
appended (`items.extend(found_items)` for each selector that found anything),
then exact-duplicate serializations are removed keeping first occurrences.
`soup` maps a selector string to the tags `soup.select(selector)` returns. -/
def collectItems (soup : String → List Item) : List Item :=
  let items := selectors_to_try.foldl
    (fun acc sel => if (soup sel).isEmpty then acc else acc ++ soup sel) []
  dedupByRaw items []

/-! ### The session loop of `scrape_google` (scraper.py lines 248-468) -/

/-- An accepted record: the extracted dictionary plus the source metadata the
loop attaches on acceptance (the `datetime.now()` timestamp is a wall-clock
read and is not modelled). -/
structure BRecord where
  info : BusinessInfo
  query : String
  page : Nat
deriving DecidableEq

structure LoopState where
  results : List BRecord
  successfulPages : Nat
deriving DecidableEq

/-- What one `page.goto` iteration of the loop observes: a navigation/wait
timeout (`PlaywrightTimeoutError`), some other per-page exception, or a loaded
page with its rendered state and parsed soup. -/
inductive PageOutcome where
  | timeout
  | stepError
  | loaded (page : PageState) (soup : String → List Item)

/-- Acceptance of one extracted item (scraper.py lines 353-379): keep the
record only when extraction succeeded, phone and name are truthy, and no
already-accepted record has the same (name, phone) pair. -/
def acceptOne (q : String) (pg : Nat) (acc : List BRecord) (it : Item) : List BRecord :=
  match extract_business_info it with
  | none => acc
  | some b =>
    if truthyStr b.phone ∧ b.name ≠ "" then
      if acc.any (fun r => r.info.name == b.name && r.info.phone == b.phone) then acc
      else acc ++ [⟨b, q, pg⟩]
    else acc

def acceptItems (q : String) (pg : Nat) (items : List Item) (acc : List BRecord) : List BRecord :=
  items.foldl (acceptOne q pg) acc

/-- The `for page_num in range(MAX_PAGES)` loop: a timeout or per-page error
skips the page (`continue`), a captcha hit breaks out preserving accumulated
results, a loaded page with no items skips it, and otherwise the page's unique
items run through extraction/acceptance and `successful_pages` increments. -/
def runLoop (q : String) : List PageOutcome → Nat → LoopState → LoopState
  | [], _, st => st
  | PageOutcome.timeout :: rest, i, st => runLoop q rest (i + 1) st
  | PageOutcome.stepError :: rest, i, st => runLoop q rest (i + 1) st
  | PageOutcome.loaded pg soup :: rest, i, st =>
    if is_captcha_page pg then st
    else
      let items := collectItems soup
      if items = [] then runLoop q rest (i + 1) st
      else runLoop q rest (i + 1)
        ⟨acceptItems q (i + 1) items st.results, st.successfulPages + 1⟩

/-- The session environment: whether browser/context setup raises (caught by
the outer `except`), the outcome of each page navigation, and whether
`browser.close()` raises (also caught by the outer `except`). -/
structure Env where
  setupFails : Bool
  pageAt : Nat → PageOutcome
  closeFails : Bool

structure Meta where
  query : String
  totalPages : Nat
  totalResults : Nat
  success : Bool
deriving DecidableEq

/-- Which write the persistence step attempts (the sink itself is external). -/
inductive SaveEvent where
  | savedResults (m : Meta)
  | savedEmpty (m : Meta)
  | noSave
deriving DecidableEq

/-- A character the file-name sanitizer keeps: `[a-z0-9-]`. -/
def safeChar (c : Char) : Bool := ('a' ≤ c && c ≤ 'z') || c.isDigit || c == '-'

/-- `re.sub(r'[^a-z0-9\-]+', '-', query.lower())`: collapse each run of
characters outside `[a-z0-9-]` to a single hyphen (`inRun` tracks whether the
previous character was part of such a run). -/
def collapseUnsafe : List Char → Bool → List Char
  | [], _ => []
  | c :: rest, inRun =>
    if safeChar c then c :: collapseUnsafe rest false
    else if inRun then collapseUnsafe rest true
    else '-' :: collapseUnsafe rest true

def safe_name (q : String) : String := ⟨collapseUnsafe (pyLower q).data false⟩

/-- Result file name; the wall-clock timestamp segment is not modelled. -/
def fileNameFor (q : String) : String := safe_name q ++ ".json"

structure ScrapeResult where
  results : List BRecord
  filename : Option String
  saved : SaveEvent
deriving DecidableEq

/-- `scrape_google(query)` as a function of the session environment.  An empty
(stripped) query returns immediately with nothing saved; a setup failure hits
the outer `except` at line 398 and returns the accumulated (empty) results
without saving; a `browser.close()` failure likewise returns the accumulated
results without saving; otherwise the results-file or the explicit
empty-results file is written (write errors of the sink are not modelled). -/
def scrape_google (query : String) (maxPages : Nat) (env : Env) : ScrapeResult :=
  let q := pyStrip query
  if q = "" then ⟨[], none, SaveEvent.noSave⟩
  else if env.setupFails then ⟨[], none, SaveEvent.noSave⟩
  else
    let st := runLoop q ((List.range maxPages).map env.pageAt) 0 ⟨[], 0⟩
    if env.closeFails then ⟨st.results, none, SaveEvent.noSave⟩
    else if st.results ≠ [] then
      ⟨st.results, some (fileNameFor q),
        SaveEvent.savedResults ⟨q, st.successfulPages, st.results.length, true⟩⟩
    else
      ⟨[], none, SaveEvent.savedEmpty ⟨q, st.successfulPages, 0, false⟩⟩

/-! ### Derived (specification-side) descriptions used by the theorems -/

/-- The qualifying candidate records a page's item list contributes, in
discovery order, before session-level dedup. -/
def pageCandidates (q : String) (pg : Nat) : List Item → List BRecord
  | [] => []
  | it :: rest =>
    match extract_business_info it with
    | none => pageCandidates q pg rest
    | some b =>
      if truthyStr b.phone ∧ b.name ≠ "" then ⟨b, q, pg⟩ :: pageCandidates q pg rest
      else pageCandidates q pg rest

/-- All qualifying candidate records the session's page traversal discovers,
in discovery order (mirrors `runLoop`'s traversal, including the break on a
captcha page). -/
def sessionCandidates (q : String) : List PageOutcome → Nat → List BRecord
  | [], _ => []
  | PageOutcome.timeout :: rest, i => sessionCandidates q rest (i + 1)
  | PageOutcome.stepError :: rest, i => sessionCandidates q rest (i + 1)
  | PageOutcome.loaded pg soup :: rest, i =>
    if is_captcha_page pg then []
    else pageCandidates q (i + 1) (collectItems soup) ++ sessionCandidates q rest (i + 1)

/-- First-occurrence dedup of a candidate stream against already-accepted
records: a candidate whose (name, phone) pair is already present is dropped,
otherwise it is appended. -/
def dedupAppend (acc : List BRecord) : List BRecord → List BRecord
  | [] => acc
  | c :: cs =>
    if acc.any (fun r => r.info.name == c.info.name && r.info.phone == c.info.phone) then
      dedupAppend acc cs
    else dedupAppend (acc ++ [c]) cs

/-- Claim C4's reading of the item-enumeration step, formalized from the
spec's words for comparison with `collectItems`: the first selector strategy
yielding any items wins for the page, later strategies contribute nothing. -/
def claimedFirstStrategyItems (soup : String → List Item) : List Item :=
  match selectors_to_try.find? (fun sel => !(soup sel).isEmpty) with
  | some sel => soup sel
  | none => []

/-! ### Concrete fixtures used by witnesses and counterexamples -/

/-- An item carrying a name (`AB`) and a valid phone in its visible text. -/
def exItem : Item :=
  { sels := [("span.OSrXXb", { text := "AB" })],
    selsAll := [], textAll := "AB 0123456789", raw := "i1" }

/-- Like `exItem`, but with an image tag holding a protocol-relative URL. -/
def imgItem : Item :=
  { sels := [("span.OSrXXb", { text := "AB" }),
             ("img.YQ4gaf", { text := "", src := some "//example.com/a.png" })],
    selsAll := [], textAll := "AB 0123456789", raw := "i2" }

/-- An ordinary (non-blocked) rendered results page. -/
def exPage : PageState :=
  { url := "https://example.com/results", title := "results",
    bodyText := "", locatorCount := fun _ => 0 }

def exSoup : String → List Item := fun sel => if sel = "div.g" then [exItem] else []

def imgSoup : String → List Item := fun sel => if sel = "div.g" then [imgItem] else []

/-- A rendered page whose only block signal is the sentence-level DOM text. -/
def exPage5 : PageState :=
  { url := "https://www.google.com/search?q=bakery&udm=1&start=0",
    title := "bakery - Google Search",
    bodyText := "Google checks to see if it\x27s really you before continuing",
    locatorCount := fun _ => 0 }

/-- Two distinct items yielded by two different selector strategies. -/
def exItemX : Item := { sels := [], selsAll := [], textAll := "", raw := "x" }

def exItemY : Item := { sels := [], selsAll := [], textAll := "", raw := "y" }

def exSoup4 : String → List Item := fun sel =>
  if sel = "div.g" then [exItemX]
  else if sel = "div[data-sokoban-container]" then [exItemY]
  else []

/-- The record the session built from `exSoup` accepts. -/
def exRecord : BRecord :=
  ⟨{ name := "AB", phone := some "0123456789", image := none,
     rating := none, reviews := none, category := none }, "q", 1⟩

/-! ### Specification-side predicates for the regex analysis -/

/-- Every character is a decimal digit. -/
def AllDigits (l : List Char) : Prop := ∀ c ∈ l, c.isDigit = true

/-- `Consumes f Q`: whenever the matcher `f` leaves remainder `rest` of input
`cs`, the consumed prefix satisfies `Q`. -/
def Consumes (f : P) (Q : List Char → Prop) : Prop :=
  ∀ cs rest, rest ∈ f cs → ∃ pre, cs = pre ++ rest ∧ Q pre

/-- The digit-and-plus content of a consumed prefix is the fixed head `h`
followed by between `a` and `b` digits. -/
def QHead (h : List Char) (a b : Nat) (pre : List Char) : Prop :=
  ∃ l, pre.filter isDP = h ++ l ∧ AllDigits l ∧ a ≤ l.length ∧ l.length ≤ b

/-- Shape of the digit-and-plus content of any full `PHONE_REGEX` match:
a `+` followed by 9-15 digits, a `0` followed by 9-16 digits, or exactly
10 digits. -/
def MatchClean (u : List Char) : Prop :=
  (∃ l, u = '+' :: l ∧ AllDigits l ∧ 9 ≤ l.length ∧ l.length ≤ 15) ∨
  (∃ l, u = '0' :: l ∧ AllDigits l ∧ 9 ≤ l.length ∧ l.length ≤ 16) ∨
  (AllDigits u ∧ u.length = 10)

/-! ### Lemmas about the `clean_phone_number` rewrites -/

theorem rewrite00_of_take_ne {l : List Char} (h : l.take 2 ≠ ['0', '0']) :
    rewrite00 l = l := if_neg h

theorem allDP_rewrite00 {l : List Char} (h : ∀ c ∈ l, isDP c = true) :
    ∀ c ∈ rewrite00 l, isDP c = true := by
  unfold rewrite00
  split
  · intro c hc
    rcases List.mem_cons.mp hc with h1 | h1
    · subst h1; decide
    · exact h c (List.mem_of_mem_drop h1)
  · exact h

theorem allDP_rewrite33 {l : List Char} (h : ∀ c ∈ l, isDP c = true) :
    ∀ c ∈ rewrite33 l, isDP c = true := by
  unfold rewrite33
  split
  · intro c hc
    rcases List.mem_cons.mp hc with h1 | h1
    · subst h1; decide
    · exact h c (List.mem_of_mem_drop h1)
  · exact h

theorem rewrite33_rewrite33 (l : List Char) : rewrite33 (rewrite33 l) = rewrite33 l := by
  unfold rewrite33
  split
  · rename_i hcond
    rw [if_neg]
    intro hc
    rcases hc with ⟨htake, _⟩
    cases hd : l.drop 2 with
    | nil => simp [hd] at htake
    | cons a rest => simp [hd, List.take] at htake
  · rfl

/-- Claim C9: for every non-empty input whose cleaned form (digits and `+`
only, after the `00`-to-`+` rewrite) starts with the digits `33` and has
exactly 11 characters, `clean_phone_number` replaces the leading `33` with
`0`; cleaned forms of any other prefix or length are returned unchanged. -/
theorem C9_french_local_rewrite (s : String) (hs : s ≠ "") :
    (((rewrite00 (s.data.filter isDP)).take 2 = ['3', '3'] ∧
        (rewrite00 (s.data.filter isDP)).length = 11) →
      clean_phone_number s = some ⟨'0' :: (rewrite00 (s.data.filter isDP)).drop 2⟩) ∧
    (¬((rewrite00 (s.data.filter isDP)).take 2 = ['3', '3'] ∧
        (rewrite00 (s.data.filter isDP)).length = 11) →
      clean_phone_number s = some ⟨rewrite00 (s.data.filter isDP)⟩) := by
  unfold clean_phone_number
  rw [if_neg hs]
  constructor
  · intro hcond
    unfold rewrite33
    rw [if_pos hcond]
  · intro hcond
    unfold rewrite33
    rw [if_neg hcond]

/-- Witness for C9: a `33`-prefixed 11-digit cleaned form is rewritten to the
10-digit local form, and a `+33`-prefixed one is left alone. -/
theorem C9_witness :
    clean_phone_number "33123456789" = some "0123456789" ∧
    clean_phone_number "+33 1 23 45 67 89" = some "+33123456789" :=
  ⟨(C9_french_local_rewrite "33123456789" (by decide)).1 (by decide),
   (C9_french_local_rewrite "+33 1 23 45 67 89" (by decide)).2 (by decide)⟩

/-- Claim C6 is false on the code: `clean_phone_number` is not idempotent.
The input `"33045678901"` normalizes to the non-absent value `"0045678901"`
(via the French `33` rewrite), but normalizing that value again yields
`"+45678901"` (the `00` rewrite now fires). -/
theorem C6_counterexample :
    clean_phone_number "33045678901" = some "0045678901" ∧
    clean_phone_number "0045678901" = some "+45678901" ∧
    clean_phone_number "0045678901" ≠ some "0045678901" := by decide

/-- Claim C6 amended: normalization is idempotent for every input whose
normalized value is non-empty and does not start with `00`.  (The sole
failures are cleaned forms `330xxxxxxxx` of length 11, where the `33` rewrite
produces a `00...` value that a second normalization rewrites to `+...`.) -/
theorem C6_idempotent_amended (x t : String) (hx : clean_phone_number x = some t)
    (ht : t ≠ "") (h00 : t.data.take 2 ≠ ['0', '0']) :
    clean_phone_number t = some t := by
  unfold clean_phone_number at hx ⊢
  by_cases hxe : x = ""
  · rw [if_pos hxe] at hx
    exact absurd hx (by simp)
  · rw [if_neg hxe] at hx
    injection hx with h1
    have hdata : t.data = rewrite33 (rewrite00 (x.data.filter isDP)) :=
      (congrArg String.data h1).symm
    have hall : ∀ c ∈ t.data, isDP c = true := by
      rw [hdata]
      exact allDP_rewrite33 (allDP_rewrite00 (fun c hc => List.of_mem_filter hc))
    have hfilter : t.data.filter isDP = t.data := List.filter_eq_self.mpr hall
    have h00eq : rewrite00 t.data = t.data := rewrite00_of_take_ne h00
    have h33eq : rewrite33 t.data = t.data := by
      rw [hdata]
      exact rewrite33_rewrite33 _
    rw [if_neg ht, hfilter, h00eq, h33eq]

/-- Witness for the amended C6: an already-normalized `+33...` value is a
fixed point of normalization. -/
theorem C6_amended_witness : clean_phone_number "+33123456789" = some "+33123456789" :=
  C6_idempotent_amended "+33 1 23 45 67 89" "+33123456789" (by decide) (by decide) (by decide)

/-- Claim C10: the block detector returns true for every page whose current
URL contains the substring `sorry` or the substring `check`, regardless of
title, DOM text, or structural elements. -/
theorem C10_url_substring_blocks (p : PageState)
    (h : strContains p.url "sorry" = true ∨ strContains p.url "check" = true) :
    is_captcha_page p = true := by
  unfold is_captcha_page
  rcases h with h | h <;> simp [h]

/-- Witness for C10: a Google interstitial URL is detected as blocked. -/
theorem C10_witness :
    is_captcha_page
      { url := "https://www.google.com/sorry/index?continue=1", title := "t",
        bodyText := "", locatorCount := fun _ => 0 } = true :=
  C10_url_substring_blocks _ (Or.inl (by decide))

/-- Claim C5 is false on the code: `is_captcha_page` never inspects the
full-page DOM text.  A page whose body contains the sentence-level block
phrase "checks to see if it's really you", but whose URL, title and
structural selectors are clean, is not detected as blocked. -/
theorem C5_counterexample :
    strContains exPage5.bodyText "checks to see if it\x27s really you" = true ∧
    is_captcha_page exPage5 = false := by
  constructor
  · decide
  · decide

/-- Claim C5 amended: the block detector is insensitive to the full-page DOM
text — its verdict depends only on the URL, the title and the structural
element counts; sentence-level phrases in the body are never consulted. -/
theorem C5_body_text_ignored (url title d1 d2 : String) (lc : String → Nat) :
    is_captcha_page { url := url, title := title, bodyText := d1, locatorCount := lc } =
    is_captcha_page { url := url, title := title, bodyText := d2, locatorCount := lc } := rfl

/-- Claim C8: a navigation/wait timeout on one page never terminates the
session by itself — the loop state (accumulated records, successful-page
count) is untouched and the loop proceeds to the next page index. -/
theorem C8_timeout_skips_page (q : String) (rest : List PageOutcome) (i : Nat)
    (st : LoopState) :
    runLoop q (PageOutcome.timeout :: rest) i st = runLoop q rest (i + 1) st := rfl

/-- Claim C3 is false on the code: on a fatal error (here: browser/context
setup raising, caught by the outer `except` at line 398), `scrape_google`
returns early and the persistence step never runs — no results file and no
empty-results file is written. -/
theorem C3_counterexample :
    scrape_google "bakery paris" 5
      { setupFails := true, pageAt := fun _ => PageOutcome.timeout, closeFails := false } =
    { results := [], filename := none, saved := SaveEvent.noSave } := by decide

/-- Claim C3 amended: for every session with a non-empty query in which
neither setup nor teardown raises a fatal error (blocked sessions and
all per-page failures included), the persistence step runs: a non-empty
accepted set is written as a results file with `success = true`, and an
empty one as an explicit empty-results file with `success = false`. -/
theorem C3_persistence_amended (query : String) (maxPages : Nat) (env : Env)
    (hq : pyStrip query ≠ "") (hs : env.setupFails = false) (hc : env.closeFails = false) :
    (∃ m, (scrape_google query maxPages env).saved = SaveEvent.savedResults m ∧
          m.success = true ∧ (scrape_google query maxPages env).results ≠ []) ∨
    (∃ m, (scrape_google query maxPages env).saved = SaveEvent.savedEmpty m ∧
          m.success = false ∧ (scrape_google query maxPages env).results = []) := by
  unfold scrape_google
  rw [if_neg hq, if_neg (by rw [hs]; simp), if_neg (by rw [hc]; simp)]
  by_cases hr :
      (runLoop (pyStrip query) ((List.range maxPages).map env.pageAt) 0 ⟨[], 0⟩).results = []
  · rw [if_neg (by simp [hr])]
    exact Or.inr ⟨_, rfl, rfl, rfl⟩
  · rw [if_pos hr]
    exact Or.inl ⟨_, rfl, rfl, hr⟩

/-- Witness for the amended C3: a clean session with a zero-page budget still
writes the explicit empty-results file with `success = false`. -/
theorem C3_amended_witness :
    (∃ m, (scrape_google "bakery" 0
            { setupFails := false, pageAt := fun _ => PageOutcome.timeout,
              closeFails := false }).saved = SaveEvent.savedResults m ∧
          m.success = true ∧
          (scrape_google "bakery" 0
            { setupFails := false, pageAt := fun _ => PageOutcome.timeout,
              closeFails := false }).results ≠ []) ∨
    (∃ m, (scrape_google "bakery" 0
            { setupFails := false, pageAt := fun _ => PageOutcome.timeout,
              closeFails := false }).saved = SaveEvent.savedEmpty m ∧
          m.success = false ∧
          (scrape_google "bakery" 0
            { setupFails := false, pageAt := fun _ => PageOutcome.timeout,
              closeFails := false }).results = []) :=
  C3_persistence_amended "bakery" 0 _ (by decide) rfl rfl

/-! ### Lemmas about page-level item collection -/

theorem foldl_extend_eq (soup : String → List Item) :
    ∀ (sels : List String) (acc : List Item),
      sels.foldl (fun acc sel => if (soup sel).isEmpty then acc else acc ++ soup sel) acc =
      acc ++ (sels.map soup).flatten := by
  intro sels
  induction sels with
  | nil => intro acc; simp
  | cons sel rest ih =>
    intro acc
    by_cases h : (soup sel).isEmpty
    · have hnil : soup sel = [] := List.isEmpty_iff.mp h
      rw [List.foldl_cons, if_pos h, ih acc, List.map_cons, List.flatten_cons, hnil,
        List.nil_append]
    · rw [List.foldl_cons, if_neg h, ih (acc ++ soup sel), List.map_cons, List.flatten_cons,
        List.append_assoc]

theorem dedupByRaw_not_seen :
    ∀ (l : List Item) (seen : List String), ∀ it ∈ dedupByRaw l seen, it.raw ∉ seen := by
  intro l
  induction l with
  | nil => intro seen it hit; simp [dedupByRaw] at hit
  | cons x rest ih =>
    intro seen it hit
    unfold dedupByRaw at hit
    by_cases hx : x.raw ∈ seen
    · rw [if_pos hx] at hit
      exact ih seen it hit
    · rw [if_neg hx] at hit
      rcases List.mem_cons.mp hit with h1 | h1
      · subst h1; exact hx
      · intro hseen
        exact ih (x.raw :: seen) it h1 (List.mem_cons_of_mem _ hseen)

theorem dedupByRaw_pairwise :
    ∀ (l : List Item) (seen : List String),
      List.Pairwise (fun a b => a.raw ≠ b.raw) (dedupByRaw l seen) := by
  intro l
  induction l with
  | nil => intro seen; simp [dedupByRaw]
  | cons x rest ih =>
    intro seen
    unfold dedupByRaw
    by_cases hx : x.raw ∈ seen
    · rw [if_pos hx]; exact ih seen
    · rw [if_neg hx]
      refine List.pairwise_cons.mpr ⟨?_, ih (x.raw :: seen)⟩
      intro it hit heq
      exact dedupByRaw_not_seen rest (x.raw :: seen) it hit (heq ▸ List.mem_cons_self _ _)

theorem dedupByRaw_covers :
    ∀ (l : List Item) (seen : List String), ∀ it ∈ l,
      it.raw ∈ seen ∨ ∃ it', it' ∈ dedupByRaw l seen ∧ it'.raw = it.raw := by
  intro l
  induction l with
  | nil => intro seen it hit; simp at hit
  | cons x rest ih =>
    intro seen it hit
    unfold dedupByRaw
    by_cases hx : x.raw ∈ seen
    · rw [if_pos hx]
      rcases List.mem_cons.mp hit with h1 | h1
      · subst h1; exact Or.inl hx
      · exact ih seen it h1
    · rw [if_neg hx]
      rcases List.mem_cons.mp hit with h1 | h1
      · subst h1
        exact Or.inr ⟨it, List.mem_cons_self _ _, rfl⟩
      · rcases ih (x.raw :: seen) it h1 with h2 | ⟨it', h3, h4⟩
        · rcases List.mem_cons.mp h2 with h5 | h5
          · exact Or.inr ⟨x, List.mem_cons_self _ _, h5.symm⟩
          · exact Or.inl h5
        · exact Or.inr ⟨it', List.mem_cons_of_mem _ h3, h4⟩

/-- Claim C4 is false on the code: when two selector strategies both yield
items, both contribute — the items handed to extraction are not those of the
first matching strategy alone. -/
theorem C4_counterexample :
    collectItems exSoup4 = [exItemX, exItemY] ∧
    claimedFirstStrategyItems exSoup4 = [exItemX] ∧
    collectItems exSoup4 ≠ claimedFirstStrategyItems exSoup4 := by decide

/-- Claim C4 amended: the items handed to extraction are the concatenation of
the yields of *all* selector strategies in priority order, deduplicated by
exact serialized markup keeping first occurrences; in particular every
strategy's items are represented (up to serialization) in the final list, and
no two survivors share a serialization. -/
theorem C4_all_strategies_amended (soup : String → List Item) :
    List.Pairwise (fun a b => a.raw ≠ b.raw) (collectItems soup) ∧
    collectItems soup = dedupByRaw ((selectors_to_try.map soup).flatten) [] ∧
    (∀ sel ∈ selectors_to_try, ∀ it ∈ soup sel,
      ∃ it', it' ∈ collectItems soup ∧ it'.raw = it.raw) := by
  have hfold : collectItems soup = dedupByRaw ((selectors_to_try.map soup).flatten) [] := by
    unfold collectItems
    rw [foldl_extend_eq soup selectors_to_try []]
    rfl
  refine ⟨?_, hfold, ?_⟩
  · rw [hfold]; exact dedupByRaw_pairwise _ _
  · intro sel hsel it hit
    have hmem : it ∈ (selectors_to_try.map soup).flatten :=
      List.mem_flatten.mpr ⟨soup sel, List.mem_map.mpr ⟨sel, hsel, rfl⟩, hit⟩
    rcases dedupByRaw_covers _ [] it hmem with h | ⟨it', h1, h2⟩
    · simp at h
    · exact ⟨it', by rw [hfold]; exact h1, h2⟩

/-- Witness for the amended C4: the second strategy's item survives into the
collected list even though the first strategy already matched. -/
theorem C4_amended_witness :
    ∃ it', it' ∈ collectItems exSoup4 ∧ it'.raw = exItemY.raw :=
  (C4_all_strategies_amended exSoup4).2.2 "div[data-sokoban-container]" (by decide)
    exItemY (by decide)

/-! ### Lemmas about image resolution -/

theorem pyOr_cases (a b : Option String) : pyOr a b = a ∨ pyOr a b = b := by
  unfold pyOr
  by_cases h : truthyStr a = true
  · exact Or.inl (if_pos h)
  · exact Or.inr (if_neg h)

theorem pickImage_attr :
    ∀ (sels : List String) (it : Item) (cur : Option String),
      pickImage sels it cur = cur ∨
      ∃ sel ∈ sels, ∃ tag, it.selectOne sel = some tag ∧
        (pickImage sels it cur = tag.src ∨ pickImage sels it cur = tag.dataSrc) := by
  intro sels
  induction sels with
  | nil => intro it cur; exact Or.inl rfl
  | cons sel rest ih =>
    intro it cur
    cases hsel : it.selectOne sel with
    | none =>
      have hstep : pickImage (sel :: rest) it cur = pickImage rest it cur := by
        rw [pickImage, hsel]
      rcases ih it cur with h | ⟨s, hs, tag2, htag2, hres⟩
      · exact Or.inl (by rw [hstep]; exact h)
      · exact Or.inr ⟨s, List.mem_cons_of_mem _ hs, tag2, htag2, by rw [hstep]; exact hres⟩
    | some tag =>
      by_cases hbrk : linkBreaks (pyOr tag.src tag.dataSrc) = true
      · have hstep : pickImage (sel :: rest) it cur = pyOr tag.src tag.dataSrc := by
          rw [pickImage, hsel]
          exact if_pos hbrk
        refine Or.inr ⟨sel, List.mem_cons_self _ _, tag, hsel, ?_⟩
        rw [hstep]
        exact pyOr_cases tag.src tag.dataSrc
      · have hstep : pickImage (sel :: rest) it cur =
            pickImage rest it (pyOr tag.src tag.dataSrc) := by
          rw [pickImage, hsel]
          exact if_neg hbrk
        rcases ih it (pyOr tag.src tag.dataSrc) with h | ⟨s, hs, tag2, htag2, hres⟩
        · refine Or.inr ⟨sel, List.mem_cons_self _ _, tag, hsel, ?_⟩
          rw [hstep, h]
          exact pyOr_cases tag.src tag.dataSrc
        · exact Or.inr ⟨s, List.mem_cons_of_mem _ hs, tag2, htag2, by rw [hstep]; exact hres⟩

theorem extract_image_eq {it : Item} {b : BusinessInfo}
    (h : extract_business_info it = some b) :
    b.image = pickImage img_selectors it none := by
  unfold extract_business_info at h
  cases hn : firstName name_selectors it with
  | none => rw [hn] at h; exact absurd h (by simp)
  | some name =>
    simp only [hn] at h
    by_cases hlen : name.length < 2
    · rw [if_pos hlen] at h; exact absurd h (by simp)
    · rw [if_neg hlen] at h
      injection h with h1
      rw [← h1]

/-- Claim C7 is false on the code: a protocol-relative image URL is emitted
exactly as found — no `https:` normalization happens before the record enters
the session's accepted list. -/
theorem C7_counterexample :
    (runLoop "q" [PageOutcome.loaded exPage imgSoup] 0 ⟨[], 0⟩).results =
      [⟨{ name := "AB", phone := some "0123456789", image := some "//example.com/a.png",
          rating := none, reviews := none, category := none }, "q", 1⟩] ∧
    some "//example.com/a.png" ≠ some "https://example.com/a.png" := by decide

/-- Claim C7 amended: the image field of an extracted record, when present, is
byte-for-byte the `src` or `data-src` attribute value of one of the image
selector tags; no normalization (protocol-relative or otherwise) is applied. -/
theorem C7_image_verbatim (it : Item) (b : BusinessInfo)
    (h : extract_business_info it = some b) :
    b.image = none ∨
    ∃ sel ∈ img_selectors, ∃ tag, it.selectOne sel = some tag ∧
      (b.image = tag.src ∨ b.image = tag.dataSrc) := by
  rw [extract_image_eq h]
  rcases pickImage_attr img_selectors it none with h1 | ⟨sel, hs, tag, htag, hres⟩
  · exact Or.inl h1
  · exact Or.inr ⟨sel, hs, tag, htag, hres⟩

/-- Witness for the amended C7: the record extracted from `imgItem` carries
the raw protocol-relative attribute value. -/
theorem C7_witness :
    ({ name := "AB", phone := some "0123456789", image := some "//example.com/a.png",
       rating := none, reviews := none, category := none } : BusinessInfo).image = none ∨
    ∃ sel ∈ img_selectors, ∃ tag, imgItem.selectOne sel = some tag ∧
      (({ name := "AB", phone := some "0123456789", image := some "//example.com/a.png",
          rating := none, reviews := none, category := none } : BusinessInfo).image = tag.src ∨
       ({ name := "AB", phone := some "0123456789", image := some "//example.com/a.png",
          rating := none, reviews := none, category := none } : BusinessInfo).image = tag.dataSrc) :=
  C7_image_verbatim imgItem _ (by decide)

/-! ### Lemmas about session-level dedup and accumulation -/

theorem acceptItems_eq :
    ∀ (items : List Item) (q : String) (pg : Nat) (acc : List BRecord),
      acceptItems q pg items acc = dedupAppend acc (pageCandidates q pg items) := by
  intro items
  induction items with
  | nil => intro q pg acc; rfl
  | cons it rest ih =>
    intro q pg acc
    have hfold : acceptItems q pg (it :: rest) acc =
        acceptItems q pg rest (acceptOne q pg acc it) := rfl
    cases hext : extract_business_info it with
    | none =>
      have h1 : acceptOne q pg acc it = acc := by simp only [acceptOne, hext]
      have h2 : pageCandidates q pg (it :: rest) = pageCandidates q pg rest := by
        simp only [pageCandidates, hext]
      rw [hfold, h1, h2, ih]
    | some b =>
      by_cases hq : truthyStr b.phone = true ∧ b.name ≠ ""
      · have h2 : pageCandidates q pg (it :: rest) =
            ⟨b, q, pg⟩ :: pageCandidates q pg rest := by
          simp only [pageCandidates, hext, if_pos hq]
        by_cases hdup :
            acc.any (fun r => r.info.name == b.name && r.info.phone == b.phone) = true
        · have h1 : acceptOne q pg acc it = acc := by
            simp only [acceptOne, hext, if_pos hq, if_pos hdup]
          have h3 : dedupAppend acc (⟨b, q, pg⟩ :: pageCandidates q pg rest) =
              dedupAppend acc (pageCandidates q pg rest) := by
            simp only [dedupAppend, if_pos hdup]
          rw [hfold, h1, h2, h3, ih]
        · have h1 : acceptOne q pg acc it = acc ++ [⟨b, q, pg⟩] := by
            simp only [acceptOne, hext, if_pos hq, if_neg hdup]
          have h3 : dedupAppend acc (⟨b, q, pg⟩ :: pageCandidates q pg rest) =
              dedupAppend (acc ++ [⟨b, q, pg⟩]) (pageCandidates q pg rest) := by
            simp only [dedupAppend, if_neg hdup]
          rw [hfold, h1, h2, h3, ih]
      · have h1 : acceptOne q pg acc it = acc := by
          simp only [acceptOne, hext, if_neg hq]
        have h2 : pageCandidates q pg (it :: rest) = pageCandidates q pg rest := by
          simp only [pageCandidates, hext, if_neg hq]
        rw [hfold, h1, h2, ih]

theorem dedupAppend_append :
    ∀ (xs ys : List BRecord) (acc : List BRecord),
      dedupAppend acc (xs ++ ys) = dedupAppend (dedupAppend acc xs) ys := by
  intro xs
  induction xs with
  | nil => intro ys acc; rfl
  | cons c cs ih =>
    intro ys acc
    by_cases hdup :
        acc.any (fun r => r.info.name == c.info.name && r.info.phone == c.info.phone) = true
    · simp only [List.cons_append, dedupAppend, if_pos hdup]
      exact ih ys acc
    · simp only [List.cons_append, dedupAppend, if_neg hdup]
      exact ih ys (acc ++ [c])

theorem runLoop_results :
    ∀ (outs : List PageOutcome) (q : String) (i : Nat) (st : LoopState),
      (runLoop q outs i st).results = dedupAppend st.results (sessionCandidates q outs i) := by
  intro outs
  induction outs with
  | nil => intro q i st; rfl
  | cons out rest ih =>
    intro q i st
    cases out with
    | timeout => simp only [runLoop, sessionCandidates]; exact ih q (i + 1) st
    | stepError => simp only [runLoop, sessionCandidates]; exact ih q (i + 1) st
    | loaded pg soup =>
      by_cases hc : is_captcha_page pg = true
      · simp only [runLoop, sessionCandidates, if_pos hc]
        rfl
      · simp only [runLoop, sessionCandidates, if_neg hc]
        by_cases hitems : collectItems soup = []
        · rw [if_pos hitems, hitems]
          simp only [pageCandidates, List.nil_append]
          exact ih q (i + 1) st
        · rw [if_neg hitems, ih q (i + 1), dedupAppend_append]
          congr 1
          exact acceptItems_eq (collectItems soup) q (i + 1) st.results

theorem dedupAppend_pairwise :
    ∀ (cs acc : List BRecord),
      List.Pairwise (fun a b => ¬(a.info.name = b.info.name ∧ a.info.phone = b.info.phone)) acc →
      List.Pairwise (fun a b => ¬(a.info.name = b.info.name ∧ a.info.phone = b.info.phone))
        (dedupAppend acc cs) := by
  intro cs
  induction cs with
  | nil => intro acc h; exact h
  | cons c cs ih =>
    intro acc h
    by_cases hdup :
        acc.any (fun r => r.info.name == c.info.name && r.info.phone == c.info.phone) = true
    · simp only [dedupAppend, if_pos hdup]
      exact ih acc h
    · simp only [dedupAppend, if_neg hdup]
      refine ih (acc ++ [c]) ?_
      rw [List.pairwise_append]
      refine ⟨h, List.pairwise_singleton _ _, ?_⟩
      intro a ha b hb
      rw [List.mem_singleton] at hb
      subst hb
      rw [List.any_eq_true] at hdup
      push_neg at hdup
      intro ⟨h1, h2⟩
      have := hdup a ha
      simp only [ne_eq, Bool.and_eq_true, beq_iff_eq] at this
      exact this ⟨h1, h2⟩

theorem dedupAppend_sublist :
    ∀ (cs acc : List BRecord),
      ∃ ds, dedupAppend acc cs = acc ++ ds ∧ List.Sublist ds cs := by
  intro cs
  induction cs with
  | nil => intro acc; exact ⟨[], by simp [dedupAppend], List.nil_sublist _⟩
  | cons c cs ih =>
    intro acc
    by_cases hdup :
        acc.any (fun r => r.info.name == c.info.name && r.info.phone == c.info.phone) = true
    · rcases ih acc with ⟨ds, h1, h2⟩
      exact ⟨ds, by simp only [dedupAppend, if_pos hdup]; exact h1, List.Sublist.cons c h2⟩
    · rcases ih (acc ++ [c]) with ⟨ds, h1, h2⟩
      refine ⟨c :: ds, ?_, List.Sublist.cons₂ c h2⟩
      simp only [dedupAppend, if_neg hdup]
      rw [h1, List.append_assoc]
      rfl

/-- Claim C1: the accepted-record list of a session is exactly the
first-occurrence dedup of the qualifying candidate stream in discovery order
(first-seen record wins, later duplicates are dropped, not merged), it is a
sublist of that stream (order preserved), and no two accepted records share
the (name, phone) pair. -/
theorem C1_session_dedup (q : String) (outs : List PageOutcome) :
    (runLoop q outs 0 ⟨[], 0⟩).results = dedupAppend [] (sessionCandidates q outs 0) ∧
    List.Sublist (runLoop q outs 0 ⟨[], 0⟩).results (sessionCandidates q outs 0) ∧
    List.Pairwise (fun a b => ¬(a.info.name = b.info.name ∧ a.info.phone = b.info.phone))
      (runLoop q outs 0 ⟨[], 0⟩).results := by
  have hres := runLoop_results outs q 0 ⟨[], 0⟩
  refine ⟨hres, ?_, ?_⟩
  · rcases dedupAppend_sublist (sessionCandidates q outs 0) [] with ⟨ds, h1, h2⟩
    rw [hres, h1]
    exact h2
  · rw [hres]
    exact dedupAppend_pairwise _ [] (List.Pairwise.nil)

/-! ### Decomposition lemmas for the regex matcher -/

theorem dCount_eq_length {l : List Char} (h : AllDigits l) : dCount l = l.length := by
  induction l with
  | nil => rfl
  | cons c rest ih =>
    have hc : c.isDigit = true := h c (List.mem_cons_self _ _)
    simp only [dCount, hc, if_pos, List.length_cons]
    rw [ih (fun d hd => h d (List.mem_cons_of_mem _ hd))]
    omega

theorem dCount_le_length (l : List Char) : dCount l ≤ l.length := by
  induction l with
  | nil => exact Nat.le_refl _
  | cons c rest ih =>
    simp only [dCount, List.length_cons]
    by_cases hc : c.isDigit = true <;> simp [hc] <;> omega

theorem take_length_append (a b : List Char) : (a ++ b).take a.length = a := by
  induction a with
  | nil => rfl
  | cons x xs ih => simp only [List.cons_append, List.length_cons, List.take_succ_cons, ih]

theorem mem_pCh {p : Char → Bool} {cs rest : List Char} (h : rest ∈ pCh p cs) :
    ∃ c, p c = true ∧ cs = c :: rest := by
  cases cs with
  | nil => simp [pCh] at h
  | cons c cs2 =>
    by_cases hp : p c = true
    · simp only [pCh, if_pos hp, List.mem_singleton] at h
      exact ⟨c, hp, by rw [h]⟩
    · simp [pCh, hp] at h

theorem mem_pSeq {f g : P} {cs rest : List Char} (h : rest ∈ pSeq f g cs) :
    ∃ mid, mid ∈ f cs ∧ rest ∈ g mid := by
  simp only [pSeq, List.mem_flatten, List.mem_map] at h
  rcases h with ⟨l, ⟨mid, hmid, rfl⟩, hrest⟩
  exact ⟨mid, hmid, hrest⟩

theorem mem_pAlt {f g : P} {cs rest : List Char} (h : rest ∈ pAlt f g cs) :
    rest ∈ f cs ∨ rest ∈ g cs := List.mem_append.mp h

theorem mem_pOpt {f : P} {cs rest : List Char} (h : rest ∈ pOpt f cs) :
    rest ∈ f cs ∨ rest = cs := by
  rcases List.mem_append.mp h with h1 | h1
  · exact Or.inl h1
  · exact Or.inr (List.mem_singleton.mp h1)

theorem consumes_mono {f : P} {Q R : List Char → Prop} (hf : Consumes f Q)
    (h : ∀ pre, Q pre → R pre) : Consumes f R := by
  intro cs rest hm
  rcases hf cs rest hm with ⟨pre, heq, hq⟩
  exact ⟨pre, heq, h pre hq⟩

theorem consumes_pCh (p : Char → Bool) :
    Consumes (pCh p) (fun pre => ∃ c, p c = true ∧ pre = [c]) := by
  intro cs rest h
  rcases mem_pCh h with ⟨c, hp, rfl⟩
  exact ⟨[c], rfl, c, hp, rfl⟩

theorem consumes_pSeq {f g : P} {Q R : List Char → Prop}
    (hf : Consumes f Q) (hg : Consumes g R) :
    Consumes (pSeq f g) (fun pre => ∃ p1 p2, pre = p1 ++ p2 ∧ Q p1 ∧ R p2) := by
  intro cs rest h
  rcases mem_pSeq h with ⟨mid, h1, h2⟩
  rcases hf cs mid h1 with ⟨p1, rfl, hq⟩
  rcases hg mid rest h2 with ⟨p2, rfl, hr⟩
  exact ⟨p1 ++ p2, by rw [List.append_assoc], p1, p2, rfl, hq, hr⟩

theorem consumes_pAlt {f g : P} {Q R : List Char → Prop}
    (hf : Consumes f Q) (hg : Consumes g R) :
    Consumes (pAlt f g) (fun pre => Q pre ∨ R pre) := by
  intro cs rest h
  rcases mem_pAlt h with h1 | h1
  · rcases hf cs rest h1 with ⟨pre, heq, hq⟩
    exact ⟨pre, heq, Or.inl hq⟩
  · rcases hg cs rest h1 with ⟨pre, heq, hr⟩
    exact ⟨pre, heq, Or.inr hr⟩

theorem consumes_pOpt {f : P} {Q : List Char → Prop} (hf : Consumes f Q) :
    Consumes (pOpt f) (fun pre => Q pre ∨ pre = []) := by
  intro cs rest h
  rcases mem_pOpt h with h1 | rfl
  · rcases hf cs rest h1 with ⟨pre, heq, hq⟩
    exact ⟨pre, heq, Or.inl hq⟩
  · exact ⟨[], rfl, Or.inr rfl⟩

/-! ### QHead algebra and the per-alternative consumption lemmas -/

theorem isDP_of_digit {c : Char} (h : c.isDigit = true) : isDP c = true := by
  simp [isDP, h]

theorem not_isDP_of_sepC {c : Char} (h : isSepC c = true) : isDP c = false := by
  simp only [isSepC, Bool.or_eq_true] at h
  rcases h with (h | h) | h
  · simp only [Char.isWhitespace, Bool.or_eq_true, decide_eq_true_eq] at h
    rcases h with ((h | h) | h) | h <;> subst h <;> decide
  · rw [show c = '-' from by simpa using h]; decide
  · rw [show c = '.' from by simpa using h]; decide

theorem not_isDP_of_sepF {c : Char} (h : isSepF c = true) : isDP c = false := by
  simp only [isSepF, Bool.or_eq_true] at h
  rcases h with h | h
  · exact not_isDP_of_sepC (by simp [isSepC, h])
  · exact not_isDP_of_sepC (by simp [isSepC, h])

theorem qhead_weaken {h : List Char} {a b a2 b2 : Nat} {pre : List Char}
    (hq : QHead h a b pre) (ha : a2 ≤ a) (hb : b ≤ b2) : QHead h a2 b2 pre := by
  rcases hq with ⟨l, he, hd, h1, h2⟩
  exact ⟨l, he, hd, Nat.le_trans ha h1, Nat.le_trans h2 hb⟩

theorem qhead_append {h1 : List Char} {a1 b1 a2 b2 : Nat} {p1 p2 : List Char}
    (hq1 : QHead h1 a1 b1 p1) (hq2 : QHead [] a2 b2 p2) :
    QHead h1 (a1 + a2) (b1 + b2) (p1 ++ p2) := by
  rcases hq1 with ⟨l1, he1, hd1, hlo1, hhi1⟩
  rcases hq2 with ⟨l2, he2, hd2, hlo2, hhi2⟩
  rw [List.nil_append] at he2
  refine ⟨l1 ++ l2, ?_, ?_, ?_, ?_⟩
  · rw [List.filter_append, he1, he2, List.append_assoc]
  · intro c hc
    rcases List.mem_append.mp hc with h | h
    · exact hd1 c h
    · exact hd2 c h
  · rw [List.length_append]; omega
  · rw [List.length_append]; omega

theorem qhead_append0 {h1 h2 : List Char} {a b : Nat} {p1 p2 : List Char}
    (hq1 : QHead h1 0 0 p1) (hq2 : QHead h2 a b p2) :
    QHead (h1 ++ h2) a b (p1 ++ p2) := by
  rcases hq1 with ⟨l1, he1, _, _, hhi1⟩
  rcases hq2 with ⟨l2, he2, hd2, hlo2, hhi2⟩
  have hl1 : l1 = [] := List.length_eq_zero.mp (Nat.le_antisymm hhi1 (Nat.zero_le _))
  subst hl1
  rw [List.append_nil] at he1
  exact ⟨l2, by rw [List.filter_append, he1, he2, List.append_assoc], hd2, hlo2, hhi2⟩

theorem qhead_seq {f g : P} {h : List Char} {a1 b1 a2 b2 : Nat}
    (hf : Consumes f (QHead h a1 b1)) (hg : Consumes g (QHead [] a2 b2)) :
    Consumes (pSeq f g) (QHead h (a1 + a2) (b1 + b2)) := by
  refine consumes_mono (consumes_pSeq hf hg) ?_
  rintro pre ⟨p1, p2, rfl, h1, h2⟩
  exact qhead_append h1 h2

theorem qhead_seq0 {f g : P} {h1 h2 : List Char} {a b : Nat}
    (hf : Consumes f (QHead h1 0 0)) (hg : Consumes g (QHead h2 a b)) :
    Consumes (pSeq f g) (QHead (h1 ++ h2) a b) := by
  refine consumes_mono (consumes_pSeq hf hg) ?_
  rintro pre ⟨p1, p2, rfl, hq1, hq2⟩
  exact qhead_append0 hq1 hq2

theorem qhead_alt {f g : P} {h : List Char} {a1 b1 a2 b2 : Nat}
    (hf : Consumes f (QHead h a1 b1)) (hg : Consumes g (QHead h a2 b2)) :
    Consumes (pAlt f g) (QHead h (min a1 a2) (max b1 b2)) := by
  refine consumes_mono (consumes_pAlt hf hg) ?_
  rintro pre (h1 | h1)
  · exact qhead_weaken h1 (Nat.min_le_left _ _) (Nat.le_max_left _ _)
  · exact qhead_weaken h1 (Nat.min_le_right _ _) (Nat.le_max_right _ _)

theorem qhead_opt {f : P} {a b : Nat} (hf : Consumes f (QHead [] a b)) :
    Consumes (pOpt f) (QHead [] 0 b) := by
  refine consumes_mono (consumes_pOpt hf) ?_
  rintro pre (h1 | rfl)
  · exact qhead_weaken h1 (Nat.zero_le _) (Nat.le_refl _)
  · exact ⟨[], rfl, fun c hc => absurd hc (List.not_mem_nil c), Nat.le_refl _, Nat.zero_le _⟩

theorem qhead_pD : Consumes pD (QHead [] 1 1) := by
  refine consumes_mono (consumes_pCh _) ?_
  rintro pre ⟨c, hc, rfl⟩
  exact ⟨[c], by simp [List.filter, isDP_of_digit hc],
    fun d hd => by rw [List.mem_singleton.mp hd]; exact hc, by simp, by simp⟩

theorem qhead_pSep : Consumes pSep (QHead [] 0 0) := by
  refine consumes_mono (consumes_pCh _) ?_
  rintro pre ⟨c, hc, rfl⟩
  exact ⟨[], by simp [List.filter, not_isDP_of_sepC hc],
    fun d hd => absurd hd (List.not_mem_nil d), Nat.le_refl _, Nat.le_refl _⟩

theorem qhead_pSepF : Consumes pSepF (QHead [] 0 0) := by
  refine consumes_mono (consumes_pCh _) ?_
  rintro pre ⟨c, hc, rfl⟩
  exact ⟨[], by simp [List.filter, not_isDP_of_sepF hc],
    fun d hd => absurd hd (List.not_mem_nil d), Nat.le_refl _, Nat.le_refl _⟩

theorem qhead_pPlus : Consumes pPlus (QHead ['+'] 0 0) := by
  refine consumes_mono (consumes_pCh _) ?_
  rintro pre ⟨c, hc, rfl⟩
  rw [show c = '+' from by simpa using hc]
  exact ⟨[], by decide, fun d hd => absurd hd (List.not_mem_nil d), Nat.le_refl _, Nat.le_refl _⟩

theorem qhead_pZero : Consumes pZero (QHead ['0'] 0 0) := by
  refine consumes_mono (consumes_pCh _) ?_
  rintro pre ⟨c, hc, rfl⟩
  rw [show c = '0' from by simpa using hc]
  exact ⟨[], by decide, fun d hd => absurd hd (List.not_mem_nil d), Nat.le_refl _, Nat.le_refl _⟩

theorem qhead_pLPar : Consumes pLPar (QHead [] 0 0) := by
  refine consumes_mono (consumes_pCh _) ?_
  rintro pre ⟨c, hc, rfl⟩
  rw [show c = '(' from by simpa using hc]
  exact ⟨[], by decide, fun d hd => absurd hd (List.not_mem_nil d), Nat.le_refl _, Nat.le_refl _⟩

theorem qhead_pRPar : Consumes pRPar (QHead [] 0 0) := by
  refine consumes_mono (consumes_pCh _) ?_
  rintro pre ⟨c, hc, rfl⟩
  rw [show c = ')' from by simpa using hc]
  exact ⟨[], by decide, fun d hd => absurd hd (List.not_mem_nil d), Nat.le_refl _, Nat.le_refl _⟩

theorem qhead_pD2 : Consumes pD2 (QHead [] 2 2) := qhead_seq qhead_pD qhead_pD

theorem qhead_pD3 : Consumes pD3 (QHead [] 3 3) := qhead_seq qhead_pD2 qhead_pD

theorem qhead_pD4 : Consumes pD4 (QHead [] 4 4) := qhead_seq qhead_pD2 qhead_pD2

theorem qhead_pD23 : Consumes pD23 (QHead [] 2 3) := qhead_alt qhead_pD3 qhead_pD2

theorem qhead_pD123 : Consumes pD123 (QHead [] 1 3) :=
  qhead_alt qhead_pD3 (qhead_alt qhead_pD2 qhead_pD)

theorem qhead_pSepOpt : Consumes pSepOpt (QHead [] 0 0) := qhead_opt qhead_pSep

theorem qhead_pGroup : Consumes pGroup (QHead [] 2 3) := qhead_seq qhead_pSepOpt qhead_pD23

theorem qhead_pGroups4 : Consumes pGroups4 (QHead [] 8 12) :=
  qhead_seq qhead_pGroup (qhead_seq qhead_pGroup (qhead_seq qhead_pGroup qhead_pGroup))

theorem qhead_pCC :
    Consumes pCC (fun pre => QHead ['+'] 1 3 pre ∨ QHead ['0', '0'] 1 3 pre) := by
  refine consumes_mono
    (consumes_pSeq (consumes_pAlt qhead_pPlus (qhead_seq0 qhead_pZero qhead_pZero))
      (qhead_seq qhead_pD123 qhead_pSepOpt)) ?_
  rintro pre ⟨p1, p2, rfl, h1 | h1, h2⟩
  · exact Or.inl (qhead_append h1 h2)
  · exact Or.inr (qhead_append h1 h2)

theorem qhead_pLocal : Consumes pLocal (QHead ['0'] 1 1) :=
  qhead_seq qhead_pZero (qhead_seq qhead_pD qhead_pSepOpt)

theorem qhead_pAlt1 :
    Consumes pAlt1 (fun pre =>
      QHead ['+'] 9 15 pre ∨ QHead ['0', '0'] 9 15 pre ∨ QHead ['0'] 9 13 pre) := by
  refine consumes_mono
    (consumes_pSeq (consumes_pAlt qhead_pCC qhead_pLocal) qhead_pGroups4) ?_
  rintro pre ⟨p1, p2, rfl, h1, h2⟩
  rcases h1 with (h1 | h1) | h1
  · exact Or.inl (qhead_append h1 h2)
  · exact Or.inr (Or.inl (qhead_append h1 h2))
  · exact Or.inr (Or.inr (qhead_append h1 h2))

theorem qhead_pFr : Consumes pFr (QHead ['0'] 9 9) :=
  qhead_seq qhead_pZero (qhead_seq qhead_pD (qhead_seq (qhead_opt qhead_pSepF)
    (qhead_seq qhead_pD2 (qhead_seq (qhead_opt qhead_pSepF) (qhead_seq qhead_pD2
      (qhead_seq (qhead_opt qhead_pSepF) (qhead_seq qhead_pD2
        (qhead_seq (qhead_opt qhead_pSepF) qhead_pD2))))))))

theorem qhead_pUS : Consumes pUS (QHead [] 10 10) :=
  qhead_seq qhead_pLPar (qhead_seq qhead_pD3 (qhead_seq qhead_pRPar
    (qhead_seq (qhead_opt qhead_pSepF) (qhead_seq qhead_pD3
      (qhead_seq (qhead_opt qhead_pSepF) qhead_pD4)))))

theorem phoneP_clean : Consumes phoneP (fun pre => MatchClean (pre.filter isDP)) := by
  refine consumes_mono (consumes_pAlt qhead_pAlt1 (consumes_pAlt qhead_pFr qhead_pUS)) ?_
  rintro pre (h | h | h)
  · rcases h with h1 | h1 | h1
    · rcases h1 with ⟨l, he, hd, hlo, hhi⟩
      exact Or.inl ⟨l, he, hd, hlo, hhi⟩
    · rcases h1 with ⟨l, he, hd, hlo, hhi⟩
      refine Or.inr (Or.inl ⟨'0' :: l, he, ?_, ?_, ?_⟩)
      · intro c hc
        rcases List.mem_cons.mp hc with rfl | hc2
        · decide
        · exact hd c hc2
      · simp only [List.length_cons]; omega
      · simp only [List.length_cons]; omega
    · rcases h1 with ⟨l, he, hd, hlo, hhi⟩
      exact Or.inr (Or.inl ⟨l, he, hd, hlo, by omega⟩)
  · rcases h with ⟨l, he, hd, hlo, hhi⟩
    exact Or.inr (Or.inl ⟨l, he, hd, hlo, by omega⟩)
  · rcases h with ⟨l, he, hd, hlo, hhi⟩
    rw [List.nil_append] at he
    refine Or.inr (Or.inr ⟨?_, ?_⟩)
    · rw [he]; exact hd
    · rw [he]; omega

/-! ### Digit-count bound for cleaned regex matches -/

theorem matchClean_digits {u : List Char} (h : MatchClean u) :
    8 ≤ dCount (rewrite33 (rewrite00 u)) := by
  rcases h with ⟨l, rfl, hd, hlo, hhi⟩ | ⟨l, rfl, hd, hlo, hhi⟩ | ⟨hd, hlen⟩
  · -- u = '+' :: l
    have h00 : rewrite00 ('+' :: l) = '+' :: l := by
      unfold rewrite00
      rw [if_neg]
      intro hc
      rw [List.take_succ_cons] at hc
      injection hc with hc1 _
      exact absurd hc1 (by decide)
    have h33 : rewrite33 ('+' :: l) = '+' :: l := by
      unfold rewrite33
      rw [if_neg]
      rintro ⟨hc, -⟩
      rw [List.take_succ_cons] at hc
      injection hc with hc1 _
      exact absurd hc1 (by decide)
    rw [h00, h33]
    simp only [dCount, show ('+').isDigit = false from by decide, if_neg]
    rw [dCount_eq_length hd]
    omega
  · -- u = '0' :: l
    cases l with
    | nil => simp at hlo
    | cons c r =>
      by_cases hc0 : c = '0'
      · subst hc0
        have h00 : rewrite00 ('0' :: '0' :: r) = '+' :: r := by
          unfold rewrite00
          rw [if_pos (by rw [List.take_succ_cons, List.take_succ_cons, List.take_zero])]
          rw [List.drop_succ_cons, List.drop_succ_cons, List.drop_zero]
        have h33 : rewrite33 ('+' :: r) = '+' :: r := by
          unfold rewrite33
          rw [if_neg]
          rintro ⟨hc, -⟩
          rw [List.take_succ_cons] at hc
          injection hc with hc1 _
          exact absurd hc1 (by decide)
        rw [h00, h33]
        simp only [dCount, show ('+').isDigit = false from by decide, if_neg]
        rw [dCount_eq_length (fun d hd2 => hd d (List.mem_cons_of_mem _ hd2))]
        simp only [List.length_cons] at hlo
        omega
      · have h00 : rewrite00 ('0' :: c :: r) = '0' :: c :: r := by
          unfold rewrite00
          rw [if_neg]
          intro hc
          rw [List.take_succ_cons, List.take_succ_cons] at hc
          injection hc with _ hc2
          injection hc2 with hc3 _
          exact hc0 hc3
        have h33 : rewrite33 ('0' :: c :: r) = '0' :: c :: r := by
          unfold rewrite33
          rw [if_neg]
          rintro ⟨hc, -⟩
          rw [List.take_succ_cons] at hc
          injection hc with hc1 _
          exact absurd hc1 (by decide)
        rw [h00, h33]
        have hcd : c.isDigit = true := hd c (List.mem_cons_self _ _)
        have hr : dCount r = r.length :=
          dCount_eq_length (fun d hd2 => hd d (List.mem_cons_of_mem _ hd2))
        simp only [dCount, show ('0').isDigit = true from by decide, hcd, if_true]
        simp only [List.length_cons] at hlo
        omega
  · -- u is exactly 10 digits
    cases u with
    | nil => simp at hlen
    | cons a t =>
      cases t with
      | nil => simp at hlen
      | cons b r =>
        by_cases hab : a = '0' ∧ b = '0'
        · obtain ⟨rfl, rfl⟩ := hab
          have h00 : rewrite00 ('0' :: '0' :: r) = '+' :: r := by
            unfold rewrite00
            rw [if_pos (by rw [List.take_succ_cons, List.take_succ_cons, List.take_zero])]
            rw [List.drop_succ_cons, List.drop_succ_cons, List.drop_zero]
          have h33 : rewrite33 ('+' :: r) = '+' :: r := by
            unfold rewrite33
            rw [if_neg]
            rintro ⟨hc, -⟩
            rw [List.take_succ_cons] at hc
            injection hc with hc1 _
            exact absurd hc1 (by decide)
          rw [h00, h33]
          simp only [dCount, show ('+').isDigit = false from by decide, if_neg]
          rw [dCount_eq_length
            (fun d hd2 => hd d (List.mem_cons_of_mem _ (List.mem_cons_of_mem _ hd2)))]
          simp only [List.length_cons] at hlen
          omega
        · have h00 : rewrite00 (a :: b :: r) = a :: b :: r := by
            unfold rewrite00
            rw [if_neg]
            intro hc
            rw [List.take_succ_cons, List.take_succ_cons] at hc
            injection hc with hc1 hc2
            injection hc2 with hc3 _
            exact hab ⟨hc1, hc3⟩
          have h33 : rewrite33 (a :: b :: r) = a :: b :: r := by
            unfold rewrite33
            rw [if_neg]
            rintro ⟨-, hc⟩
            rw [hlen] at hc
            omega
          rw [h00, h33, dCount_eq_length hd, hlen]
          omega

/-! ### Soundness of the findall scan -/

theorem phoneFindAllAux_sound :
    ∀ (fuel : Nat) (cs m : List Char), m ∈ phoneFindAllAux fuel cs →
      MatchClean (m.filter isDP) := by
  intro fuel
  induction fuel with
  | zero => intro cs m h; simp [phoneFindAllAux] at h
  | succ fuel ih =>
    intro cs m h
    cases cs with
    | nil => simp [phoneFindAllAux] at h
    | cons c rest =>
      cases hp : phoneP (c :: rest) with
      | nil =>
        simp only [phoneFindAllAux, hp] at h
        exact ih rest m h
      | cons r rs =>
        simp only [phoneFindAllAux, hp] at h
        rcases List.mem_cons.mp h with h1 | h1
        · have hr : r ∈ phoneP (c :: rest) := by rw [hp]; exact List.mem_cons_self _ _
          rcases phoneP_clean _ r hr with ⟨pre, heq, hmc⟩
          have hlen : (c :: rest).length - r.length = pre.length := by
            rw [heq, List.length_append]
            omega
          rw [h1, hlen, heq, take_length_append]
          exact hmc
        · exact ih _ m h1

/-! ### From findall matches to accepted phone values -/

theorem findAllPhones_matchClean {s m : String} (h : m ∈ findAllPhones s) :
    MatchClean (m.data.filter isDP) := by
  unfold findAllPhones at h
  rcases List.mem_map.mp h with ⟨l, hl, rfl⟩
  exact phoneFindAllAux_sound _ _ l hl

theorem clean_digit_bounds {m c : String} (hmc : MatchClean (m.data.filter isDP))
    (hc : clean_phone_number m = some c) (hlen : c.length ≤ 15) :
    8 ≤ dCount c.data ∧ dCount c.data ≤ 15 := by
  unfold clean_phone_number at hc
  by_cases hme : m = ""
  · rw [if_pos hme] at hc
    exact absurd hc (by simp)
  · rw [if_neg hme] at hc
    injection hc with h1
    have hd : c.data = rewrite33 (rewrite00 (m.data.filter isDP)) :=
      (congrArg String.data h1).symm
    constructor
    · rw [hd]
      exact matchClean_digits hmc
    · exact Nat.le_trans (dCount_le_length _) hlen

theorem firstValidPhone_spec :
    ∀ (ms : List String) (c : String), firstValidPhone ms = some c →
      ∃ m ∈ ms, clean_phone_number m = some c ∧ 8 ≤ c.length ∧ c.length ≤ 15 := by
  intro ms
  induction ms with
  | nil => intro c h; simp [firstValidPhone] at h
  | cons m rest ih =>
    intro c h
    cases hc : clean_phone_number m with
    | none =>
      simp only [firstValidPhone, hc] at h
      rcases ih c h with ⟨m2, h1, h2⟩
      exact ⟨m2, List.mem_cons_of_mem _ h1, h2⟩
    | some c0 =>
      simp only [firstValidPhone, hc] at h
      by_cases hv : c0 ≠ "" ∧ 8 ≤ c0.length ∧ c0.length ≤ 15
      · rw [if_pos hv] at h
        injection h with h1
        subst h1
        exact ⟨m, List.mem_cons_self _ _, hc, hv.2⟩
      · rw [if_neg hv] at h
        rcases ih c h with ⟨m2, h1, h2⟩
        exact ⟨m2, List.mem_cons_of_mem _ h1, h2⟩

theorem phoneFromText_valid {text p : String} (h : phoneFromText text = some p) :
    8 ≤ dCount p.data ∧ dCount p.data ≤ 15 := by
  unfold phoneFromText at h
  rcases firstValidPhone_spec _ _ h with ⟨m, hm, hc, _, hl15⟩
  exact clean_digit_bounds (findAllPhones_matchClean hm) hc hl15

theorem phoneFromSections_valid :
    ∀ (secs : List Tag) (p : String), phoneFromSections secs = some p →
      8 ≤ dCount p.data ∧ dCount p.data ≤ 15 := by
  intro secs
  induction secs with
  | nil => intro p h; simp [phoneFromSections] at h
  | cons sec rest ih =>
    intro p h
    cases h1 : phoneFromText sec.text with
    | some p0 =>
      simp only [phoneFromSections, h1] at h
      injection h with h2
      subst h2
      exact phoneFromText_valid h1
    | none =>
      simp only [phoneFromSections, h1] at h
      exact ih p h

/-! ### Structure of `extract_business_info` results -/

theorem extract_phone_eq {it : Item} {b : BusinessInfo}
    (h : extract_business_info it = some b) :
    b.phone = (match phoneFromText it.textAll with
      | some p => some p
      | none => phoneFromSections (it.selectAll contact_sections_selector)) := by
  unfold extract_business_info at h
  cases hn : firstName name_selectors it with
  | none => rw [hn] at h; exact absurd h (by simp)
  | some name =>
    simp only [hn] at h
    by_cases hlen : name.length < 2
    · rw [if_pos hlen] at h; exact absurd h (by simp)
    · rw [if_neg hlen] at h
      injection h with h1
      rw [← h1]

theorem extract_name_len {it : Item} {b : BusinessInfo}
    (h : extract_business_info it = some b) : 2 ≤ b.name.length := by
  unfold extract_business_info at h
  cases hn : firstName name_selectors it with
  | none => rw [hn] at h; exact absurd h (by simp)
  | some name =>
    simp only [hn] at h
    by_cases hlen : name.length < 2
    · rw [if_pos hlen] at h; exact absurd h (by simp)
    · rw [if_neg hlen] at h
      injection h with h1
      rw [← h1]
      show 2 ≤ name.length
      omega

theorem extract_phone_valid {it : Item} {b : BusinessInfo}
    (h : extract_business_info it = some b) :
    b.phone = none ∨ ∃ p, b.phone = some p ∧ 8 ≤ dCount p.data ∧ dCount p.data ≤ 15 := by
  have he := extract_phone_eq h
  cases hpt : phoneFromText it.textAll with
  | some p =>
    simp only [hpt] at he
    exact Or.inr ⟨p, he, phoneFromText_valid hpt⟩
  | none =>
    simp only [hpt] at he
    cases hps : phoneFromSections (it.selectAll contact_sections_selector) with
    | none => rw [hps] at he; exact Or.inl he
    | some p => rw [hps] at he; exact Or.inr ⟨p, he, phoneFromSections_valid _ _ hps⟩

/-! ### Membership chain through the session loop -/

theorem mem_dedupAppend :
    ∀ (cs acc : List BRecord) (r : BRecord), r ∈ dedupAppend acc cs → r ∈ acc ∨ r ∈ cs := by
  intro cs
  induction cs with
  | nil => intro acc r h; exact Or.inl h
  | cons c cs ih =>
    intro acc r h
    by_cases hdup :
        acc.any (fun x => x.info.name == c.info.name && x.info.phone == c.info.phone) = true
    · simp only [dedupAppend, if_pos hdup] at h
      rcases ih acc r h with h1 | h1
      · exact Or.inl h1
      · exact Or.inr (List.mem_cons_of_mem _ h1)
    · simp only [dedupAppend, if_neg hdup] at h
      rcases ih (acc ++ [c]) r h with h1 | h1
      · rcases List.mem_append.mp h1 with h2 | h2
        · exact Or.inl h2
        · exact Or.inr (by rw [List.mem_singleton.mp h2]; exact List.mem_cons_self _ _)
      · exact Or.inr (List.mem_cons_of_mem _ h1)

theorem mem_pageCandidates :
    ∀ (items : List Item) (q : String) (pg : Nat) (r : BRecord),
      r ∈ pageCandidates q pg items →
      ∃ it, extract_business_info it = some r.info ∧ truthyStr r.info.phone = true := by
  intro items
  induction items with
  | nil => intro q pg r h; simp [pageCandidates] at h
  | cons it rest ih =>
    intro q pg r h
    cases hext : extract_business_info it with
    | none =>
      simp only [pageCandidates, hext] at h
      exact ih q pg r h
    | some b =>
      simp only [pageCandidates, hext] at h
      by_cases hq : truthyStr b.phone = true ∧ b.name ≠ ""
      · rw [if_pos hq] at h
        rcases List.mem_cons.mp h with h1 | h1
        · subst h1
          exact ⟨it, hext, hq.1⟩
        · exact ih q pg r h1
      · rw [if_neg hq] at h
        exact ih q pg r h

theorem mem_sessionCandidates :
    ∀ (outs : List PageOutcome) (q : String) (i : Nat) (r : BRecord),
      r ∈ sessionCandidates q outs i →
      ∃ it, extract_business_info it = some r.info ∧ truthyStr r.info.phone = true := by
  intro outs
  induction outs with
  | nil => intro q i r h; simp [sessionCandidates] at h
  | cons out rest ih =>
    intro q i r h
    cases out with
    | timeout => exact ih q (i + 1) r h
    | stepError => exact ih q (i + 1) r h
    | loaded pg soup =>
      by_cases hc : is_captcha_page pg = true
      · simp only [sessionCandidates, if_pos hc] at h
        exact absurd h (List.not_mem_nil r)
      · simp only [sessionCandidates, if_neg hc] at h
        rcases List.mem_append.mp h with h1 | h1
        · exact mem_pageCandidates _ q (i + 1) r h1
        · exact ih q (i + 1) r h1

/-- Claim C2: every record accepted into a session has a phone whose digit
count lies between 8 and 15 inclusive and a name of length at least 2
(non-empty); a record without a valid phone is never accepted (the phone of
every accepted record is present).  The code has no sentinel name value, so
the sentinel clause of the claim is vacuous here. -/
theorem C2_accepted_records_valid (q : String) (outs : List PageOutcome) (r : BRecord)
    (h : r ∈ (runLoop q outs 0 ⟨[], 0⟩).results) :
    2 ≤ r.info.name.length ∧
    ∃ p, r.info.phone = some p ∧ 8 ≤ dCount p.data ∧ dCount p.data ≤ 15 := by
  rw [runLoop_results] at h
  rcases mem_dedupAppend _ _ _ h with h1 | h1
  · exact absurd h1 (List.not_mem_nil r)
  · rcases mem_sessionCandidates _ _ _ _ h1 with ⟨it, hext, htr⟩
    refine ⟨extract_name_len hext, ?_⟩
    rcases extract_phone_valid hext with hnone | ⟨p, hp, hb⟩
    · rw [hnone] at htr
      exact absurd htr (by simp [truthyStr])
    · exact ⟨p, hp, hb⟩

/-- Witness for C2: the record accepted from `exItem`; its phone
`"0123456789"` has 10 digits and its name has length 2. -/
theorem C2_witness :
    2 ≤ exRecord.info.name.length ∧
    ∃ p, exRecord.info.phone = some p ∧ 8 ≤ dCount p.data ∧ dCount p.data ≤ 15 :=
  C2_accepted_records_valid "q" [PageOutcome.loaded exPage exSoup] exRecord (by decide)
